import Mathlib

/-!
Verification of `src/IRIS/import_images.py` (functions `decode_data_Ke` and
`decode_data_Chen`) against its natural-language specification.

Embedding notes.
An image (a 2D numpy uint8 matrix in the source) is a list of rows of
natural-number intensities.  The OpenCV collaborators are modelled at their
documented interface:
* `imread` reads a file and yields the decoded grayscale image, or nothing
  when the file cannot be located/decoded (OpenCV returns `None`; every
  subsequent OpenCV call on `None` raises, so a failed read aborts the loop
  iteration before anything is appended to the stack — the embedding
  therefore surfaces the failure as a `channelNotFound` error at load time).
  The file system is a parameter `imread : String → Option Image`.
* `add` is OpenCV saturating per-pixel addition (clamps at 255 instead of
  wrapping).
* `addWeighted` is OpenCV per-pixel weighted blend with `saturate_cast` to
  the 8-bit range; weights are exact rationals and rounding is to the
  nearest integer (for the weights 0.4/0.6 used by the source, ties never
  arise, so the tie-breaking mode is irrelevant).
* `warpAffine` resamples the source image through a 2D affine map into an
  output of exactly the requested size `(width, height)`; pixels sampled
  outside the source bounds are the border constant 0.
* `imwrite` only writes debug images to disk and contributes nothing to the
  returned values; it is omitted from the embedding.
`register_cycles` (from `src/IRIS/register_images.py`, not part of the
provided sources) is modelled from the spec as an opaque deterministic
adapter, see `RegistrationAdapter` below.
`print(..., file=stderr)` followed by `exit(1)` is modelled as the
`errorCycles` outcome; `errorCyclesExitCode` records the process exit code.
The pipelines additionally record the trace of registration calls they
issue, so that properties about when and with which arguments the external
registration routine is consulted can be stated.
-/

/-- A grayscale image: a list of rows, each row a list of pixel
intensities.  A decoded 8-bit image has every intensity `≤ 255`. -/
structure Image where
  rows : List (List Nat)
deriving DecidableEq, Repr

/-- Number of rows (`shape[0]` in numpy). -/
def Image.height (img : Image) : Nat := img.rows.length

/-- Number of columns of the first row (`shape[1]` in numpy; a decoded
image is rectangular, so every row has this length). -/
def Image.width (img : Image) : Nat := (img.rows.headD []).length

/-- Pixel lookup at integer coordinates, with OpenCV border constant 0
outside the stored grid. -/
def Image.px (img : Image) (x y : ℤ) : Nat :=
  if 0 ≤ x ∧ 0 ≤ y then ((img.rows.getD y.toNat []).getD x.toNat 0) else 0

/-- The empty image `numpy.array([], dtype=uint8)`. -/
def emptyImage : Image := ⟨[]⟩

/-- Predicate: the image is a rectangular `w × h` grid. -/
def Image.hasDims (img : Image) (w h : Nat) : Prop :=
  img.rows.length = h ∧ ∀ r ∈ img.rows, r.length = w

/-- Predicate: every pixel intensity is at most `n` (with `n = 255`: the
image is valid 8-bit data). -/
def Image.pixLe (img : Image) (n : Nat) : Prop :=
  ∀ r ∈ img.rows, ∀ p ∈ r, p ≤ n

instance (img : Image) (w h : Nat) : Decidable (img.hasDims w h) := by
  unfold Image.hasDims; infer_instance

instance (img : Image) (n : Nat) : Decidable (img.pixLe n) := by
  unfold Image.pixLe; infer_instance

/-- OpenCV `cv2.add`: per-pixel saturating addition, clamping at 255
rather than wrapping (meaningful for two images of equal shape; OpenCV
raises on mismatched shapes). -/
def cvAdd (x y : Image) : Image :=
  ⟨List.zipWith (fun r s => List.zipWith (fun p q => min (p + q) 255) r s)
    x.rows y.rows⟩

/-- Clamp an integer into the 8-bit range `[0, 255]` (OpenCV
`saturate_cast<uint8>`). -/
def clamp255 (z : ℤ) : Nat := (min (max z 0) 255).toNat

/-- OpenCV `cv2.addWeighted`: per-pixel `saturate_cast(α·p + β·q + γ)`,
rounded to the nearest integer and clamped to `[0, 255]`. -/
def cvAddWeighted (x : Image) (alpha : ℚ) (y : Image) (beta : ℚ)
    (gamma : ℚ) : Image :=
  ⟨List.zipWith
    (fun r s => List.zipWith
      (fun (p q : Nat) =>
        clamp255 (round (alpha * (p : ℚ) + beta * (q : ℚ) + gamma))) r s)
    x.rows y.rows⟩

/-- A 2D affine transform, by its six matrix coefficients
(`[[a, b, c], [d, e, f]]`). -/
structure Transform where
  a : ℚ
  b : ℚ
  c : ℚ
  d : ℚ
  e : ℚ
  f : ℚ
deriving DecidableEq, Repr

/-- The identity transform. -/
def idTransform : Transform := ⟨1, 0, 0, 0, 1, 0⟩

/-- OpenCV `cv2.warpAffine src m (w, h)`: an image of exactly `h` rows and
`w` columns whose pixel at `(x, y)` samples the source through the affine
map, with border constant 0 outside the source bounds. -/
def warpAffine (src : Image) (m : Transform) (dsize : Nat × Nat) : Image :=
  ⟨(List.range dsize.2).map fun (y : Nat) =>
    (List.range dsize.1).map fun (x : Nat) =>
      src.px (round (m.a * (x : ℚ) + m.b * (y : ℚ) + m.c))
             (round (m.d * (x : ℚ) + m.e * (y : ℚ) + m.f))⟩

/-- The ways a pipeline invocation can fail to return a value. -/
inductive DecodeError where
  /-- `print('ERROR CYCLES', file=stderr)` followed by `exit(1)`:
  the process terminates without producing output. -/
  | errorCycles
  /-- A named channel file could not be located/decoded: `imread`
  yields no image and the iteration aborts before appending anything. -/
  | channelNotFound
  /-- The registration routine failed to produce a transform. -/
  | registrationFailed
deriving DecidableEq, Repr

/-- The non-zero exit code of the `exit(1)` call issued when the input
cycle list is empty (source lines 36–39 and 135–138). -/
def errorCyclesExitCode : Nat := 1

/-- Modelled from the spec: `register_cycles`, imported from
`src/IRIS/register_images.py`, is not among the provided sources.  The
spec specifies only its interface: `estimateTransform(reference, target,
method) → Transform` returns a 2D affine transform mapping `target`'s
coordinate frame onto `reference`'s, fails with `RegistrationFailed` when
too few features match or the fit is degenerate, and is deterministic
given identical inputs and method selector.  It is therefore modelled as
an arbitrary function value (a Lean function is deterministic by
construction), failure expressed by `none`. -/
structure RegistrationAdapter where
  estimate : Image → Image → String → Option Transform

/-- A record of one call to the registration routine: the reference
image, the target image and the method selector it was invoked with. -/
structure RegCall where
  reference : Image
  target : Image
  method : String
deriving DecidableEq, Repr

/-- Read the five channels of one cycle directory (source lines 52–56):
`Y5.tif` (A), `FAM.tif` (T), `TXR.tif` (C), `Y3.tif` (G), `DAPI.tif`
(background); `'/'.join((dir, name))` is `dir ++ "/" ++ name`.  Fails when
any of the five files cannot be read. -/
def keLoad (imread : String → Option Image) (dir : String) :
    Option (Image × Image × Image × Image × Image) :=
  match imread (dir ++ "/Y5.tif") with
  | none => none
  | some chA =>
    match imread (dir ++ "/FAM.tif") with
    | none => none
    | some chT =>
      match imread (dir ++ "/TXR.tif") with
      | none => none
      | some chC =>
        match imread (dir ++ "/Y3.tif") with
        | none => none
        | some chG =>
          match imread (dir ++ "/DAPI.tif") with
          | none => none
          | some ch0 => some (chA, chT, chC, chG, ch0)

/-- The registration-and-alignment part of one `decode_data_Ke` loop
iteration (source lines 93–113): estimate the transform from the fixed
reference to this cycle's merged image (`merged_img = channel_0`, line
66), then warp the four base channels with that single transform to the
reference's size `(shape[1], shape[0])` and collect them in A, T, C, G
order.  Also records the registration call. -/
def keAlign (ra : RegistrationAdapter) (regRef : Image)
    (chA chT chC chG ch0 : Image) :
    Except DecodeError (List Image × RegCall) :=
  match ra.estimate regRef ch0 ("ORB") with
  | none => .error .registrationFailed
  | some tm =>
    .ok ([warpAffine chA tm (regRef.width, regRef.height),
          warpAffine chT tm (regRef.width, regRef.height),
          warpAffine chC tm (regRef.width, regRef.height),
          warpAffine chG tm (regRef.width, regRef.height)],
         ⟨regRef, ch0, "ORB"⟩)

/-- One full `decode_data_Ke` loop iteration for a cycle of index ≥ 1
(reference and output composite already fixed): load, register, align. -/
def keCycleEntry (imread : String → Option Image)
    (ra : RegistrationAdapter) (regRef : Image) (dir : String) :
    Except DecodeError (List Image × RegCall) :=
  match keLoad imread dir with
  | none => .error .channelNotFound
  | some (chA, chT, chC, chG, ch0) => keAlign ra regRef chA chT chC chG ch0

/-- The stack entries and registration calls produced by a run of
`decode_data_Ke` loop iterations that all use the already-fixed reference
(every cycle of index ≥ 1). -/
def keEntries (imread : String → Option Image)
    (ra : RegistrationAdapter) (regRef : Image) :
    List String → Except DecodeError (List (List Image) × List RegCall)
  | [] => .ok ([], [])
  | dir :: rest =>
    match keCycleEntry imread ra regRef dir with
    | .error err => .error err
    | .ok (entry, call) =>
      match keEntries imread ra regRef rest with
      | .error err => .error err
      | .ok (es, cs) => .ok (entry :: es, call :: cs)

/-- The `for cycle_id in range(0, len(f_cycles))` loop of
`decode_data_Ke` (source lines 46–120), with the loop-carried state
explicit: the remaining cycle directories, the current `cycle_id`, the
registration reference `reg_ref`, the output composite `f_std_img`, the
accumulated `f_cycle_stack`, and the trace of registration calls.  At
`cycle_id == 0` the reference is fixed to the merged image and the output
composite is built as `addWeighted(add(add(add(A, T), C), G), 0.4,
background, 0.6, 0)` (source lines 77–91); registration is invoked for
every cycle, including cycle 0 (source line 93). -/
def decodeKeGo (imread : String → Option Image)
    (ra : RegistrationAdapter) :
    List String → Nat → Image → Image → List (List Image) →
    List RegCall →
    Except DecodeError (List (List Image) × Image × List RegCall)
  | [], _, _, stdImg, stack, calls => .ok (stack, stdImg, calls)
  | dir :: rest, cycleId, regRef, stdImg, stack, calls =>
    match keLoad imread dir with
    | none => .error .channelNotFound
    | some (chA, chT, chC, chG, ch0) =>
      let merged := ch0
      let regRefNew := if cycleId = 0 then merged else regRef
      let stdImgNew :=
        if cycleId = 0 then
          cvAddWeighted (cvAdd (cvAdd (cvAdd chA chT) chC) chG) 0.4
            ch0 0.6 0
        else stdImg
      match keAlign ra regRefNew chA chT chC chG ch0 with
      | .error err => .error err
      | .ok (entry, call) =>
        decodeKeGo imread ra rest (cycleId + 1) regRefNew stdImgNew
          (stack ++ [entry]) (calls ++ [call])

/-- `decode_data_Ke` (source lines 26–122): on an empty cycle list,
report and exit; otherwise run the loop from `cycle_id = 0` with the
initial empty arrays and return `(f_cycle_stack, f_std_img)` together
with the trace of registration calls. -/
def decode_data_Ke (imread : String → Option Image)
    (ra : RegistrationAdapter) (f_cycles : List String) :
    Except DecodeError (List (List Image) × Image × List RegCall) :=
  if f_cycles.length < 1 then .error .errorCycles
  else decodeKeGo imread ra f_cycles 0 emptyImage emptyImage [] []

/-- The `for cycle_id in range(0, len(f_cycles))` loop of
`decode_data_Chen` (source lines 144–183): read the single `STORM.tif`
channel, at `cycle_id == 0` set the output composite to it, and append
the singleton channel list unchanged — no transform is computed or
applied (the registration call is commented out in the source, line
168). -/
def decodeChenGo (imread : String → Option Image) :
    List String → Nat → Image → List (List Image) →
    Except DecodeError (List (List Image) × Image)
  | [], _, stdImg, stack => .ok (stack, stdImg)
  | dir :: rest, cycleId, stdImg, stack =>
    match imread (dir ++ "/STORM.tif") with
    | none => .error .channelNotFound
    | some ch0 =>
      let stdImgNew := if cycleId = 0 then ch0 else stdImg
      decodeChenGo imread rest (cycleId + 1) stdImgNew (stack ++ [[ch0]])

/-- `decode_data_Chen` (source lines 125–185): on an empty cycle list,
report and exit; otherwise run the loop from `cycle_id = 0` and return
`(f_cycle_stack, f_std_img)`. -/
def decode_data_Chen (imread : String → Option Image)
    (f_cycles : List String) :
    Except DecodeError (List (List Image) × Image) :=
  if f_cycles.length < 1 then .error .errorCycles
  else decodeChenGo imread f_cycles 0 emptyImage []

/-- The ReferenceFrame of a `decode_data_Ke` run: the merged image of
cycle 0, which the source takes to be cycle 0's DAPI channel (lines 66
and 78). -/
def keReference (imread : String → Option Image) :
    List String → Option Image
  | [] => none
  | dir :: _ => imread (dir ++ "/DAPI.tif")

/-- The `STORM.tif` channels of all cycles of a `decode_data_Chen` run,
or nothing when any of them cannot be read. -/
def chenLoads (imread : String → Option Image) :
    List String → Option (List Image)
  | [] => some []
  | dir :: rest =>
    match imread (dir ++ "/STORM.tif"), chenLoads imread rest with
    | some z, some zs => some (z :: zs)
    | _, _ => none

/-- Whether a pipeline invocation produced a value (as opposed to
aborting with an error / process exit). -/
def isOkResult {ε α : Type _} : Except ε α → Bool
  | .ok _ => true
  | .error _ => false

/-- A uniform 1×1 test image of intensity `v`. -/
def wImg (v : Nat) : Image := ⟨[[v]]⟩

/-- A concrete test file system: one multi-channel cycle directory `c`
with 1×1 channels, and two single-channel cycle directories `e`, `f`. -/
def wImread : String → Option Image := fun p =>
  if p = ("c/Y5.tif") then some (wImg 10)
  else if p = ("c/FAM.tif") then some (wImg 20)
  else if p = ("c/TXR.tif") then some (wImg 30)
  else if p = ("c/Y3.tif") then some (wImg 40)
  else if p = ("c/DAPI.tif") then some (wImg 50)
  else if p = ("e/STORM.tif") then some (wImg 1)
  else if p = ("f/STORM.tif") then some (wImg 2)
  else none

/-- A registration adapter that always reports the identity transform. -/
def wRa : RegistrationAdapter := ⟨fun _ _ _ => some idTransform⟩

/-- A test file system whose cycle directory `c` holds distinct 1×2
channel images. -/
def cxImread : String → Option Image := fun p =>
  if p = ("c/Y5.tif") then some ⟨[[10, 20]]⟩
  else if p = ("c/FAM.tif") then some ⟨[[30, 40]]⟩
  else if p = ("c/TXR.tif") then some ⟨[[50, 60]]⟩
  else if p = ("c/Y3.tif") then some ⟨[[70, 80]]⟩
  else if p = ("c/DAPI.tif") then some ⟨[[90, 100]]⟩
  else none

/-- A registration adapter that always reports a one-pixel horizontal
translation — a finite, non-degenerate affine transform, so a behaviour
the spec's registration contract allows. -/
def cxRa : RegistrationAdapter := ⟨fun _ _ _ => some ⟨1, 0, 1, 0, 1, 0⟩⟩

/-- A file system on which every read fails. -/
def wNoneImread : String → Option Image := fun _ => none

theorem keLoad_proj {imread : String → Option Image} {dir : String}
    {chA chT chC chG ch0 : Image}
    (h : keLoad imread dir = some (chA, chT, chC, chG, ch0)) :
    imread (dir ++ "/Y5.tif") = some chA ∧
    imread (dir ++ "/FAM.tif") = some chT ∧
    imread (dir ++ "/TXR.tif") = some chC ∧
    imread (dir ++ "/Y3.tif") = some chG ∧
    imread (dir ++ "/DAPI.tif") = some ch0 := by
  unfold keLoad at h
  cases hA : imread (dir ++ "/Y5.tif") <;> rw [hA] at h <;>
    [skip; cases hT : imread (dir ++ "/FAM.tif") <;> rw [hT] at h] <;>
    [skip; skip;
     cases hC : imread (dir ++ "/TXR.tif") <;> rw [hC] at h] <;>
    [skip; skip; skip;
     cases hG : imread (dir ++ "/Y3.tif") <;> rw [hG] at h] <;>
    [skip; skip; skip; skip;
     cases h0 : imread (dir ++ "/DAPI.tif") <;> rw [h0] at h] <;>
    simp_all

theorem keAlign_ok_elim {ra : RegistrationAdapter} {regRef : Image}
    {chA chT chC chG ch0 : Image} {entry : List Image} {call : RegCall}
    (h : keAlign ra regRef chA chT chC chG ch0 = .ok (entry, call)) :
    ∃ tm, ra.estimate regRef ch0 ("ORB") = some tm ∧
      entry = [warpAffine chA tm (regRef.width, regRef.height),
               warpAffine chT tm (regRef.width, regRef.height),
               warpAffine chC tm (regRef.width, regRef.height),
               warpAffine chG tm (regRef.width, regRef.height)] ∧
      call = ⟨regRef, ch0, ("ORB")⟩ := by
  unfold keAlign at h
  cases hE : ra.estimate regRef ch0 ("ORB") <;> rw [hE] at h <;>
    simp_all

theorem keCycleEntry_ok_elim {imread : String → Option Image}
    {ra : RegistrationAdapter} {regRef : Image} {dir : String}
    {entry : List Image} {call : RegCall}
    (h : keCycleEntry imread ra regRef dir = .ok (entry, call)) :
    ∃ chA chT chC chG ch0 tm,
      keLoad imread dir = some (chA, chT, chC, chG, ch0) ∧
      ra.estimate regRef ch0 ("ORB") = some tm ∧
      entry = [warpAffine chA tm (regRef.width, regRef.height),
               warpAffine chT tm (regRef.width, regRef.height),
               warpAffine chC tm (regRef.width, regRef.height),
               warpAffine chG tm (regRef.width, regRef.height)] ∧
      call = ⟨regRef, ch0, ("ORB")⟩ := by
  unfold keCycleEntry at h
  cases hL : keLoad imread dir with
  | none => rw [hL] at h; cases h
  | some chans =>
    obtain ⟨chA, chT, chC, chG, ch0⟩ := chans
    rw [hL] at h
    obtain ⟨tm, h1, h2, h3⟩ := keAlign_ok_elim h
    exact ⟨chA, chT, chC, chG, ch0, tm, rfl, h1, h2, h3⟩

theorem keEntries_ok_elim {imread : String → Option Image}
    {ra : RegistrationAdapter} {regRef : Image} {l : List String}
    {es : List (List Image)} {cs : List RegCall}
    (h : keEntries imread ra regRef l = .ok (es, cs)) :
    es.length = l.length ∧ cs.length = l.length ∧
    ∀ (i : Nat) (h1 : i < l.length) (h2 : i < es.length)
      (h3 : i < cs.length),
      keCycleEntry imread ra regRef (l.get ⟨i, h1⟩) =
        .ok (es.get ⟨i, h2⟩, cs.get ⟨i, h3⟩) := by
  induction l generalizing es cs with
  | nil =>
    unfold keEntries at h
    cases h
    exact ⟨rfl, rfl, fun i h1 => absurd h1 (Nat.not_lt_zero i)⟩
  | cons dir rest ih =>
    unfold keEntries at h
    cases hE : keCycleEntry imread ra regRef dir with
    | error err => rw [hE] at h; cases h
    | ok pr =>
      obtain ⟨entry, call⟩ := pr
      rw [hE] at h
      cases hR : keEntries imread ra regRef rest with
      | error err => rw [hR] at h; cases h
      | ok pr2 =>
        obtain ⟨es2, cs2⟩ := pr2
        rw [hR] at h
        cases h
        obtain ⟨hlen1, hlen2, hget⟩ := ih hR
        refine ⟨by simp [hlen1], by simp [hlen2], ?_⟩
        intro i h1 h2 h3
        match i with
        | 0 => simpa using hE
        | Nat.succ j =>
          simpa using hget j (by simpa using h1) (by simpa using h2)
            (by simpa using h3)

theorem decodeKeGo_pos (imread : String → Option Image)
    (ra : RegistrationAdapter) (rest : List String) :
    ∀ (k : Nat), k ≠ 0 →
      ∀ (regRef stdImg : Image) (stack : List (List Image))
        (calls : List RegCall),
        decodeKeGo imread ra rest k regRef stdImg stack calls =
          match keEntries imread ra regRef rest with
          | .error err => .error err
          | .ok (es, cs) => .ok (stack ++ es, stdImg, calls ++ cs) := by
  induction rest with
  | nil =>
    intro k hk regRef stdImg stack calls
    simp [decodeKeGo, keEntries]
  | cons dir rest ih =>
    intro k hk regRef stdImg stack calls
    simp only [decodeKeGo, keEntries, keCycleEntry, if_neg hk]
    cases hL : keLoad imread dir with
    | none => simp
    | some chans =>
      obtain ⟨chA, chT, chC, chG, ch0⟩ := chans
      dsimp only
      cases hAl : keAlign ra regRef chA chT chC chG ch0 with
      | error err => simp
      | ok pr =>
        obtain ⟨entry, call⟩ := pr
        dsimp only
        rw [ih (k + 1) (Nat.succ_ne_zero k)]
        cases hE : keEntries imread ra regRef rest with
        | error err => simp
        | ok pr2 =>
          obtain ⟨es, cs⟩ := pr2
          simp

theorem decode_Ke_ok_elim {imread : String → Option Image}
    {ra : RegistrationAdapter} {cycles : List String}
    {stack : List (List Image)} {std : Image} {calls : List RegCall}
    (h : decode_data_Ke imread ra cycles = .ok (stack, std, calls)) :
    ∃ ref, keReference imread cycles = some ref ∧
      stack.length = cycles.length ∧ calls.length = cycles.length ∧
      ∀ (i : Nat) (h1 : i < cycles.length) (h2 : i < stack.length)
        (h3 : i < calls.length),
        keCycleEntry imread ra ref (cycles.get ⟨i, h1⟩) =
          .ok (stack.get ⟨i, h2⟩, calls.get ⟨i, h3⟩) := by
  cases cycles with
  | nil => simp [decode_data_Ke] at h
  | cons dir rest =>
    unfold decode_data_Ke at h
    rw [if_neg (by simp)] at h
    simp only [decodeKeGo, reduceIte] at h
    cases hL : keLoad imread dir with
    | none => rw [hL] at h; cases h
    | some chans =>
      obtain ⟨chA, chT, chC, chG, ch0⟩ := chans
      rw [hL] at h
      dsimp only at h
      cases hAl : keAlign ra ch0 chA chT chC chG ch0 with
      | error err => rw [hAl] at h; cases h
      | ok pr =>
        obtain ⟨entry0, call0⟩ := pr
        rw [hAl] at h
        dsimp only at h
        rw [decodeKeGo_pos imread ra rest 1 (Nat.one_ne_zero)] at h
        cases hE : keEntries imread ra ch0 rest with
        | error err => rw [hE] at h; cases h
        | ok pr2 =>
          obtain ⟨es, cs⟩ := pr2
          rw [hE] at h
          cases h
          obtain ⟨hlen1, hlen2, hget⟩ := keEntries_ok_elim hE
          refine ⟨ch0, (keLoad_proj hL).2.2.2.2, by simp [hlen1],
            by simp [hlen2], ?_⟩
          intro i h1 h2 h3
          match i with
          | 0 =>
            simpa [keCycleEntry, hL] using hAl
          | Nat.succ j =>
            simpa using hget j (by simpa using h1) (by simpa using h2)
              (by simpa using h3)

theorem chenLoads_get {imread : String → Option Image}
    {l : List String} {imgs : List Image}
    (h : chenLoads imread l = some imgs) :
    imgs.length = l.length ∧
    ∀ (i : Nat) (h1 : i < l.length) (h2 : i < imgs.length),
      imread ((l.get ⟨i, h1⟩) ++ "/STORM.tif") = some (imgs.get ⟨i, h2⟩) := by
  induction l generalizing imgs with
  | nil =>
    unfold chenLoads at h
    cases h
    exact ⟨rfl, fun i h1 => absurd h1 (Nat.not_lt_zero i)⟩
  | cons dir rest ih =>
    unfold chenLoads at h
    cases hz : imread (dir ++ "/STORM.tif") with
    | none => rw [hz] at h; cases h
    | some z =>
      rw [hz] at h
      cases hr : chenLoads imread rest with
      | none => rw [hr] at h; cases h
      | some zs =>
        rw [hr] at h
        cases h
        obtain ⟨hlen, hget⟩ := ih hr
        refine ⟨by simp [hlen], ?_⟩
        intro i h1 h2
        match i with
        | 0 => simpa using hz
        | Nat.succ j =>
          simpa using hget j (by simpa using h1) (by simpa using h2)

theorem decodeChenGo_pos (imread : String → Option Image)
    (rest : List String) :
    ∀ (k : Nat), k ≠ 0 →
      ∀ (stdImg : Image) (stack : List (List Image)),
        decodeChenGo imread rest k stdImg stack =
          match chenLoads imread rest with
          | none => .error .channelNotFound
          | some zs => .ok (stack ++ zs.map (fun z => [z]), stdImg) := by
  induction rest with
  | nil =>
    intro k hk stdImg stack
    simp [decodeChenGo, chenLoads]
  | cons dir rest ih =>
    intro k hk stdImg stack
    simp only [decodeChenGo, chenLoads, if_neg hk]
    cases hz : imread (dir ++ "/STORM.tif") with
    | none => simp
    | some z =>
      dsimp only
      rw [ih (k + 1) (Nat.succ_ne_zero k)]
      cases hr : chenLoads imread rest with
      | none => simp
      | some zs => simp

theorem decode_Chen_ok_elim {imread : String → Option Image}
    {cycles : List String} {stack : List (List Image)} {std : Image}
    (h : decode_data_Chen imread cycles = .ok (stack, std)) :
    ∃ imgs, chenLoads imread cycles = some imgs ∧
      stack = imgs.map (fun z => [z]) ∧ imgs.head? = some std := by
  cases cycles with
  | nil => simp [decode_data_Chen] at h
  | cons dir rest =>
    unfold decode_data_Chen at h
    rw [if_neg (by simp)] at h
    simp only [decodeChenGo, reduceIte] at h
    cases hz : imread (dir ++ "/STORM.tif") with
    | none => rw [hz] at h; cases h
    | some z =>
      rw [hz] at h
      dsimp only at h
      rw [decodeChenGo_pos imread rest 1 (Nat.one_ne_zero)] at h
      cases hr : chenLoads imread rest with
      | none => rw [hr] at h; cases h
      | some zs =>
        rw [hr] at h
        cases h
        exact ⟨std :: zs, by simp [chenLoads, hz, hr], by simp, rfl⟩

theorem px_natCast (img : Image) (j i : Nat) :
    img.px (j : ℤ) (i : ℤ) = (img.rows.getD i []).getD j 0 := by
  simp [Image.px, Int.toNat_natCast]

theorem warpAffine_hasDims (src : Image) (m : Transform) (w h : Nat) :
    (warpAffine src m (w, h)).hasDims w h := by
  constructor
  · simp [warpAffine]
  · intro r hr
    simp only [warpAffine, List.mem_map] at hr
    obtain ⟨y, _, rfl⟩ := hr
    simp

theorem warpAffine_id (img : Image) (w h : Nat) (hd : img.hasDims w h) :
    warpAffine img idTransform (w, h) = img := by
  obtain ⟨hh, hw⟩ := hd
  cases img with
  | mk rows =>
    dsimp only at hh hw
    rw [warpAffine, Image.mk.injEq]
    apply List.ext_getElem
    · simpa using hh.symm
    · intro i h1 h2
      rw [List.getElem_map, List.getElem_range]
      apply List.ext_getElem
      · have hm : rows[i] ∈ rows := List.getElem_mem h2
        simpa using (hw _ hm).symm
      · intro j j1 j2
        rw [List.getElem_map, List.getElem_range]
        have e1 : idTransform.a * (j : ℚ) + idTransform.b * (i : ℚ) +
            idTransform.c = ((j : ℚ)) := by
          simp [idTransform]
        have e2 : idTransform.d * (j : ℚ) + idTransform.e * (i : ℚ) +
            idTransform.f = ((i : ℚ)) := by
          simp [idTransform]
        rw [e1, e2, round_natCast, round_natCast, px_natCast]
        dsimp only
        rw [List.getD_eq_getElem _ _ h2, List.getD_eq_getElem _ _ j2]

theorem mem_zipWith_elim {α β γ : Type _} {f : α → β → γ} :
    ∀ {l1 : List α} {l2 : List β} {x : γ}, x ∈ List.zipWith f l1 l2 →
      ∃ a b, a ∈ l1 ∧ b ∈ l2 ∧ x = f a b := by
  intro l1
  induction l1 with
  | nil => intro l2 x hx; simp at hx
  | cons a l1 ih =>
    intro l2 x hx
    cases l2 with
    | nil => simp at hx
    | cons b l2 =>
      simp only [List.zipWith_cons_cons, List.mem_cons] at hx
      rcases hx with rfl | hx
      · exact ⟨a, b, by simp, by simp, rfl⟩
      · obtain ⟨a2, b2, ha, hb, hx⟩ := ih hx
        exact ⟨a2, b2, by simp [ha], by simp [hb], hx⟩

theorem clamp255_le (z : ℤ) : clamp255 z ≤ 255 := by
  unfold clamp255
  omega

theorem cvAdd_pixLe (x y : Image) : (cvAdd x y).pixLe 255 := by
  intro r hr p hp
  obtain ⟨r1, r2, _, _, rfl⟩ := mem_zipWith_elim hr
  obtain ⟨p1, p2, _, _, rfl⟩ := mem_zipWith_elim hp
  omega

theorem cvAddWeighted_pixLe (x : Image) (alpha : ℚ) (y : Image)
    (beta gamma : ℚ) : (cvAddWeighted x alpha y beta gamma).pixLe 255 := by
  intro r hr p hp
  obtain ⟨r1, r2, _, _, rfl⟩ := mem_zipWith_elim hr
  obtain ⟨p1, p2, _, _, rfl⟩ := mem_zipWith_elim hp
  exact clamp255_le _

/-- Claim C5: for an empty input cycle list, both `decode_data_Ke` and
`decode_data_Chen` hit the fatal no-cycles condition: they report
`ERROR CYCLES` and terminate via `exit(1)` — a non-zero exit code — and
produce no output; neither ever returns an (empty) stack. -/
theorem empty_cycles_fatal (imread : String → Option Image)
    (ra : RegistrationAdapter) :
    decode_data_Ke imread ra [] = .error .errorCycles ∧
    decode_data_Chen imread [] = .error .errorCycles ∧
    errorCyclesExitCode ≠ 0 :=
  ⟨rfl, rfl, by decide⟩

/-- Claim C9: each pipeline is a deterministic function of the file
system, the registration adapter (assumed deterministic, as the spec
requires of the external registration routine) and the input cycle
list: two invocations on identical inputs return identical cycle stacks
and output composites. -/
theorem decode_idempotent (imread1 imread2 : String → Option Image)
    (ra1 ra2 : RegistrationAdapter) (cy1 cy2 : List String)
    (h1 : imread1 = imread2) (h2 : ra1 = ra2) (h3 : cy1 = cy2) :
    decode_data_Ke imread1 ra1 cy1 = decode_data_Ke imread2 ra2 cy2 ∧
    decode_data_Chen imread1 cy1 = decode_data_Chen imread2 cy2 := by
  subst h1
  subst h2
  subst h3
  exact ⟨rfl, rfl⟩

/-- Witness for claim C9 at a concrete file system and cycle list. -/
theorem decode_idempotent_witness :
    decode_data_Ke wImread wRa (["c"]) = decode_data_Ke wImread wRa (["c"]) ∧
    decode_data_Chen wImread (["c"]) = decode_data_Chen wImread (["c"]) :=
  decode_idempotent wImread wImread wRa wRa (["c"]) (["c"]) rfl rfl rfl

/-- Claim C8: when a named channel of some cycle cannot be located or
decoded, the invocation aborts — it never returns a value, so no partial
stack is produced (in the multi-channel variant a cycle fails when any
of its five channel files is unreadable; in the single-channel variant
when its `STORM.tif` is unreadable). -/
theorem channel_missing_aborts (imread : String → Option Image)
    (ra : RegistrationAdapter) (cyK cyC : List String) (i j : Nat)
    (hi : i < cyK.length) (hj : j < cyC.length)
    (hK : keLoad imread (cyK.get ⟨i, hi⟩) = none)
    (hC : imread ((cyC.get ⟨j, hj⟩) ++ "/STORM.tif") = none) :
    isOkResult (decode_data_Ke imread ra cyK) = false ∧
    isOkResult (decode_data_Chen imread cyC) = false := by
  constructor
  · cases hres : decode_data_Ke imread ra cyK with
    | error err => rfl
    | ok out =>
      obtain ⟨stack, std, calls⟩ := out
      obtain ⟨ref, _, hl1, hl2, hget⟩ := decode_Ke_ok_elim hres
      have hok := hget i hi (by omega) (by omega)
      obtain ⟨chA, chT, chC2, chG, ch0, tm, hload, _⟩ :=
        keCycleEntry_ok_elim hok
      rw [hK] at hload
      cases hload
  · cases hres : decode_data_Chen imread cyC with
    | error err => rfl
    | ok out =>
      obtain ⟨stack, std⟩ := out
      obtain ⟨imgs, hloads, _, _⟩ := decode_Chen_ok_elim hres
      obtain ⟨hlen, hget⟩ := chenLoads_get hloads
      have hok := hget j hj (by omega)
      rw [hC] at hok
      cases hok

/-- Witness for claim C8: a file system on which every read fails makes
both decoders abort. -/
theorem channel_missing_aborts_witness :
    isOkResult (decode_data_Ke wNoneImread wRa (["x"])) = false ∧
    isOkResult (decode_data_Chen wNoneImread (["x"])) = false :=
  channel_missing_aborts wNoneImread wRa (["x"]) (["x"]) 0 0 (by decide)
    (by decide) rfl rfl

/-- Claim C1: whenever a decode run returns a cycle stack, that stack
has exactly one entry per input cycle, and the i-th entry is built from
the i-th input cycle directory (for the multi-channel variant: by the
per-cycle load/register/align step against the fixed reference; for the
single-channel variant: the singleton of its loaded channel) — insertion
order, never re-sorted. -/
theorem stack_matches_input_order (imread : String → Option Image)
    (ra : RegistrationAdapter) (cyK cyC : List String)
    (stackK : List (List Image)) (stdK : Image) (callsK : List RegCall)
    (stackC : List (List Image)) (stdC : Image)
    (hK : decode_data_Ke imread ra cyK = .ok (stackK, stdK, callsK))
    (hC : decode_data_Chen imread cyC = .ok (stackC, stdC)) :
    stackK.length = cyK.length ∧ stackC.length = cyC.length ∧
    (∃ ref, keReference imread cyK = some ref ∧
      ∀ (i : Nat) (h1 : i < cyK.length) (h2 : i < stackK.length)
        (h3 : i < callsK.length),
        keCycleEntry imread ra ref (cyK.get ⟨i, h1⟩) =
          .ok (stackK.get ⟨i, h2⟩, callsK.get ⟨i, h3⟩)) ∧
    (∀ (i : Nat) (h1 : i < cyC.length) (h2 : i < stackC.length),
      ∃ z, imread ((cyC.get ⟨i, h1⟩) ++ "/STORM.tif") = some z ∧
        stackC.get ⟨i, h2⟩ = [z]) := by
  obtain ⟨ref, href, hl1, hl2, hget⟩ := decode_Ke_ok_elim hK
  obtain ⟨imgs, hloads, hstack, hhead⟩ := decode_Chen_ok_elim hC
  obtain ⟨hclen, hcget⟩ := chenLoads_get hloads
  refine ⟨hl1, by simp [hstack, hclen], ⟨ref, href, hget⟩, ?_⟩
  intro i h1 h2
  have h2i : i < imgs.length := by omega
  refine ⟨imgs.get ⟨i, h2i⟩, hcget i h1 h2i, ?_⟩
  subst hstack
  simp

/-- Witness for claim C1 at a concrete one-cycle multi-channel run and a
concrete two-cycle single-channel run. -/
theorem stack_matches_input_order_witness :
    ([[wImg 10, wImg 20, wImg 30, wImg 40]] : List (List Image)).length =
      (["c"] : List String).length ∧
    ([[wImg 1], [wImg 2]] : List (List Image)).length =
      (["e", "f"] : List String).length := by
  have hfull := stack_matches_input_order wImread wRa (["c"]) (["e", "f"])
    ([[wImg 10, wImg 20, wImg 30, wImg 40]]) (wImg 70)
    ([⟨wImg 50, wImg 50, "ORB"⟩]) ([[wImg 1], [wImg 2]]) (wImg 1)
    (by with_unfolding_all rfl) (by with_unfolding_all rfl)
  exact ⟨hfull.1, hfull.2.1⟩

/-- Claim C3: in the multi-channel variant the reference frame is fixed
exactly once — it is cycle 0's merged image (`keReference`) — and every
registration call of the run, whatever the cycle, is issued as
`register_cycles(reference, mergedImage_i, 'ORB')` against that same
fixed reference, whose transform estimate succeeds. -/
theorem reference_fixed_once (imread : String → Option Image)
    (ra : RegistrationAdapter) (cycles : List String)
    (stack : List (List Image)) (std : Image) (calls : List RegCall)
    (h : decode_data_Ke imread ra cycles = .ok (stack, std, calls)) :
    ∃ ref, keReference imread cycles = some ref ∧
      calls.length = cycles.length ∧
      ∀ (i : Nat) (h1 : i < cycles.length) (h3 : i < calls.length),
        (calls.get ⟨i, h3⟩).reference = ref ∧
        (calls.get ⟨i, h3⟩).method = ("ORB") ∧
        imread ((cycles.get ⟨i, h1⟩) ++ "/DAPI.tif") =
          some ((calls.get ⟨i, h3⟩).target) ∧
        ∃ tm, ra.estimate ref ((calls.get ⟨i, h3⟩).target) ("ORB") =
          some tm := by
  obtain ⟨ref, href, hl1, hl2, hget⟩ := decode_Ke_ok_elim h
  refine ⟨ref, href, hl2, ?_⟩
  intro i h1 h3
  have h2 : i < stack.length := by omega
  have hok := hget i h1 h2 h3
  obtain ⟨chA, chT, chC, chG, ch0, tm, hload, hest, hentry, hcall⟩ :=
    keCycleEntry_ok_elim hok
  rw [hcall]
  exact ⟨rfl, rfl, (keLoad_proj hload).2.2.2.2, tm, hest⟩

/-- Witness for claim C3 at a concrete one-cycle run. -/
theorem reference_fixed_once_witness :
    ([⟨wImg 50, wImg 50, "ORB"⟩] : List RegCall).length =
      (["c"] : List String).length := by
  obtain ⟨ref, href, hlen, hprops⟩ := reference_fixed_once wImread wRa
    (["c"]) ([[wImg 10, wImg 20, wImg 30, wImg 40]]) (wImg 70)
    ([⟨wImg 50, wImg 50, "ORB"⟩]) (by with_unfolding_all rfl)
  exact hlen

/-- Claim C4: in the multi-channel variant, every cycle's stack entry
consists of its four channel images all resampled with that cycle's
single transform (the same `tm` for all four warps), and every image in
every entry is a rectangular grid with exactly the reference frame's
pixel dimensions (width, height). -/
theorem aligned_dims (imread : String → Option Image)
    (ra : RegistrationAdapter) (cycles : List String)
    (stack : List (List Image)) (std : Image) (calls : List RegCall)
    (h : decode_data_Ke imread ra cycles = .ok (stack, std, calls)) :
    ∃ ref, keReference imread cycles = some ref ∧
      ∀ l ∈ stack, l.length = 4 ∧
        (∃ tm chA chT chC chG,
          l = [warpAffine chA tm (ref.width, ref.height),
               warpAffine chT tm (ref.width, ref.height),
               warpAffine chC tm (ref.width, ref.height),
               warpAffine chG tm (ref.width, ref.height)]) ∧
        ∀ img ∈ l, img.hasDims ref.width ref.height := by
  obtain ⟨ref, href, hl1, hl2, hget⟩ := decode_Ke_ok_elim h
  refine ⟨ref, href, ?_⟩
  intro l hl
  obtain ⟨⟨i, h2⟩, rfl⟩ := List.mem_iff_get.mp hl
  have h1 : i < cycles.length := by omega
  have h3 : i < calls.length := by omega
  have hok := hget i h1 h2 h3
  obtain ⟨chA, chT, chC, chG, ch0, tm, hload, hest, hentry, hcall⟩ :=
    keCycleEntry_ok_elim hok
  rw [hentry]
  refine ⟨rfl, ⟨tm, chA, chT, chC, chG, rfl⟩, ?_⟩
  intro img himg
  simp only [List.mem_cons, List.not_mem_nil, or_false] at himg
  rcases himg with rfl | rfl | rfl | rfl <;> exact warpAffine_hasDims _ _ _ _

/-- Witness for claim C4 at a concrete one-cycle run. -/
theorem aligned_dims_witness :
    ([wImg 10, wImg 20, wImg 30, wImg 40] : List Image).length = 4 := by
  obtain ⟨ref, href, hprops⟩ := aligned_dims wImread wRa (["c"])
    ([[wImg 10, wImg 20, wImg 30, wImg 40]]) (wImg 70)
    ([⟨wImg 50, wImg 50, "ORB"⟩]) (by with_unfolding_all rfl)
  exact (hprops _ (by simp)).1

/-- Claim C10: in the multi-channel variant, the i-th stack entry is
exactly the list of the warped A, T, C, G base channels of the i-th
cycle, in that fixed order (`Y5.tif`, `FAM.tif`, `TXR.tif`, `Y3.tif`),
all with the single transform estimated for that cycle; the fifth
loaded channel (`DAPI.tif`, the background) is not one of the entry's
four components — it feeds only the merged registration image and, for
cycle 0, the output composite. -/
theorem stack_entry_structure (imread : String → Option Image)
    (ra : RegistrationAdapter) (cycles : List String)
    (stack : List (List Image)) (std : Image) (calls : List RegCall)
    (h : decode_data_Ke imread ra cycles = .ok (stack, std, calls)) :
    ∃ ref, keReference imread cycles = some ref ∧
      ∀ (i : Nat) (h1 : i < cycles.length) (h2 : i < stack.length),
        ∃ chA chT chC chG ch0 tm,
          keLoad imread (cycles.get ⟨i, h1⟩) =
            some (chA, chT, chC, chG, ch0) ∧
          ra.estimate ref ch0 ("ORB") = some tm ∧
          stack.get ⟨i, h2⟩ =
            [warpAffine chA tm (ref.width, ref.height),
             warpAffine chT tm (ref.width, ref.height),
             warpAffine chC tm (ref.width, ref.height),
             warpAffine chG tm (ref.width, ref.height)] := by
  obtain ⟨ref, href, hl1, hl2, hget⟩ := decode_Ke_ok_elim h
  refine ⟨ref, href, ?_⟩
  intro i h1 h2
  have h3 : i < calls.length := by omega
  have hok := hget i h1 h2 h3
  obtain ⟨chA, chT, chC, chG, ch0, tm, hload, hest, hentry, hcall⟩ :=
    keCycleEntry_ok_elim hok
  exact ⟨chA, chT, chC, chG, ch0, tm, hload, hest, hentry⟩

/-- Witness for claim C10 at a concrete one-cycle run. -/
theorem stack_entry_structure_witness :
    keLoad wImread ("c") = some (wImg 10, wImg 20, wImg 30, wImg 40,
      wImg 50) := by
  obtain ⟨ref, href, hprops⟩ := stack_entry_structure wImread wRa (["c"])
    ([[wImg 10, wImg 20, wImg 30, wImg 40]]) (wImg 70)
    ([⟨wImg 50, wImg 50, "ORB"⟩]) (by with_unfolding_all rfl)
  obtain ⟨chA, chT, chC, chG, ch0, tm, hload, hest, hentry⟩ :=
    hprops 0 (by decide) (by decide)
  have hload1 : keLoad wImread ("c") = some (chA, chT, chC, chG, ch0) :=
    hload
  have hAeq : chA = wImg 10 ∧ chT = wImg 20 ∧ chC = wImg 30 ∧
      chG = wImg 40 ∧ ch0 = wImg 50 := by
    have hload2 : keLoad wImread ("c") =
        some (wImg 10, wImg 20, wImg 30, wImg 40, wImg 50) := rfl
    rw [hload2] at hload1
    simpa using hload1.symm
  obtain ⟨rfl, rfl, rfl, rfl, rfl⟩ := hAeq
  exact hload1

theorem decode_Ke_std_elim {imread : String → Option Image}
    {ra : RegistrationAdapter} {dir : String} {rest : List String}
    {stack : List (List Image)} {std : Image} {calls : List RegCall}
    (h : decode_data_Ke imread ra (dir :: rest) = .ok (stack, std, calls)) :
    ∃ chA chT chC chG ch0,
      keLoad imread dir = some (chA, chT, chC, chG, ch0) ∧
      std = cvAddWeighted (cvAdd (cvAdd (cvAdd chA chT) chC) chG) 0.4
        ch0 0.6 0 := by
  unfold decode_data_Ke at h
  rw [if_neg (by simp)] at h
  simp only [decodeKeGo, reduceIte] at h
  cases hL : keLoad imread dir with
  | none => rw [hL] at h; cases h
  | some chans =>
    obtain ⟨chA, chT, chC, chG, ch0⟩ := chans
    rw [hL] at h
    dsimp only at h
    cases hAl : keAlign ra ch0 chA chT chC chG ch0 with
    | error err => rw [hAl] at h; cases h
    | ok pr =>
      obtain ⟨entry0, call0⟩ := pr
      rw [hAl] at h
      dsimp only at h
      rw [decodeKeGo_pos imread ra rest 1 (Nat.one_ne_zero)] at h
      cases hE : keEntries imread ra ch0 rest with
      | error err => rw [hE] at h; cases h
      | ok pr2 =>
        obtain ⟨es, cs⟩ := pr2
        rw [hE] at h
        cases h
        exact ⟨chA, chT, chC, chG, ch0, rfl, rfl⟩

/-- Claim C6: in the multi-channel variant the output composite is the
saturating sum of the four base channels blended with the background
channel at weights 0.4 (foreground) and 0.6 (background), and, for
8-bit inputs, every arithmetic step — each of the three `cv2.add`
partial sums, and the final weighted blend — stays within `[0, 255]`
(OpenCV arithmetic clamps rather than wraps, and the result's pixels are
natural numbers, so `≤ 255` is exactly the 8-bit range). -/
theorem composite_blend_saturates (imread : String → Option Image)
    (ra : RegistrationAdapter) (dir : String) (rest : List String)
    (stack : List (List Image)) (std : Image) (calls : List RegCall)
    (chA chT chC chG ch0 : Image)
    (h : decode_data_Ke imread ra (dir :: rest) = .ok (stack, std, calls))
    (hload : keLoad imread dir = some (chA, chT, chC, chG, ch0))
    (h8A : chA.pixLe 255) (h8T : chT.pixLe 255) (h8C : chC.pixLe 255)
    (h8G : chG.pixLe 255) (h80 : ch0.pixLe 255) :
    std = cvAddWeighted (cvAdd (cvAdd (cvAdd chA chT) chC) chG) 0.4
      ch0 0.6 0 ∧
    (cvAdd chA chT).pixLe 255 ∧
    (cvAdd (cvAdd chA chT) chC).pixLe 255 ∧
    (cvAdd (cvAdd (cvAdd chA chT) chC) chG).pixLe 255 ∧
    std.pixLe 255 := by
  obtain ⟨chA2, chT2, chC2, chG2, ch02, hload2, hstd⟩ :=
    decode_Ke_std_elim h
  rw [hload] at hload2
  obtain ⟨rfl, rfl, rfl, rfl, rfl⟩ : chA2 = chA ∧ chT2 = chT ∧
      chC2 = chC ∧ chG2 = chG ∧ ch02 = ch0 := by
    simpa using hload2.symm
  subst hstd
  exact ⟨rfl, cvAdd_pixLe _ _, cvAdd_pixLe _ _, cvAdd_pixLe _ _,
    cvAddWeighted_pixLe _ _ _ _ _⟩

/-- Witness for claim C6 at a concrete one-cycle run with 8-bit
channels. -/
theorem composite_blend_saturates_witness :
    wImg 70 = cvAddWeighted (cvAdd (cvAdd (cvAdd (wImg 10) (wImg 20))
      (wImg 30)) (wImg 40)) 0.4 (wImg 50) 0.6 0 ∧
    (wImg 70).pixLe 255 := by
  have hfull := composite_blend_saturates wImread wRa ("c") []
    ([[wImg 10, wImg 20, wImg 30, wImg 40]]) (wImg 70)
    ([⟨wImg 50, wImg 50, "ORB"⟩]) (wImg 10) (wImg 20) (wImg 30)
    (wImg 40) (wImg 50) (by with_unfolding_all rfl) rfl (by decide)
    (by decide) (by decide) (by decide) (by decide)
  exact ⟨hfull.1, hfull.1 ▸ hfull.2.2.2.2⟩

/-- Claim C7: the single-channel variant computes and applies no
transform: whenever it returns, the stack is exactly the list of
singleton lists of the loaded `STORM.tif` channels, unchanged and in
input order, and the output composite is cycle 0's channel. -/
theorem chen_unchanged (imread : String → Option Image)
    (cycles : List String) (stack : List (List Image)) (std : Image)
    (h : decode_data_Chen imread cycles = .ok (stack, std)) :
    ∃ imgs, chenLoads imread cycles = some imgs ∧
      stack = imgs.map (fun z => [z]) ∧ imgs.head? = some std ∧
      stack.head? = some [std] := by
  obtain ⟨imgs, hloads, hstack, hhead⟩ := decode_Chen_ok_elim h
  refine ⟨imgs, hloads, hstack, hhead, ?_⟩
  cases imgs with
  | nil => cases hhead
  | cons z zs =>
    cases hhead
    simp [hstack]

/-- Witness for claim C7: the spec's scenario — two cycles with distinct
images A and B give stack `[[A], [B]]` unchanged and composite A. -/
theorem chen_unchanged_witness :
    ∃ imgs, chenLoads wImread (["e", "f"]) = some imgs ∧
      ([[wImg 1], [wImg 2]] : List (List Image)) =
        imgs.map (fun z => [z]) ∧
      imgs.head? = some (wImg 1) ∧
      ([[wImg 1], [wImg 2]] : List (List Image)).head? = some [wImg 1] :=
  chen_unchanged wImread (["e", "f"]) ([[wImg 1], [wImg 2]]) (wImg 1)
    (by with_unfolding_all rfl)

/-- Claim C2 counterexample: `decode_data_Ke` invokes the registration
routine for cycle 0 as well (source line 93 is not guarded by
`cycle_id == 0`), so "no registration call is issued" is false — on a
one-cycle input the recorded call trace is non-empty, its single call
being made with reference = target = cycle 0's merged image.  Moreover,
with a registration adapter that reports a one-pixel translation (a
finite non-degenerate affine transform, which the spec's registration
contract does not forbid on identical inputs), cycle 0's aligned
channels are not pixel-identical to the unaligned originals, although
every channel already has exactly the reference's dimensions (so no
output-size crop/pad is involved). -/
theorem keCycle0_counterexample :
    decode_data_Ke cxImread cxRa (["c"]) =
      .ok ([[⟨[[20, 0]]⟩, ⟨[[40, 0]]⟩, ⟨[[60, 0]]⟩, ⟨[[80, 0]]⟩]],
           ⟨[[118, 140]]⟩,
           [⟨⟨[[90, 100]]⟩, ⟨[[90, 100]]⟩, "ORB"⟩]) ∧
    ([⟨⟨[[90, 100]]⟩, ⟨[[90, 100]]⟩, "ORB"⟩] : List RegCall) ≠ [] ∧
    ([(⟨[[20, 0]]⟩ : Image), ⟨[[40, 0]]⟩, ⟨[[60, 0]]⟩, ⟨[[80, 0]]⟩] :
        List Image) ≠
      [(⟨[[10, 20]]⟩ : Image), ⟨[[30, 40]]⟩, ⟨[[50, 60]]⟩, ⟨[[70, 80]]⟩] ∧
    (⟨[[10, 20]]⟩ : Image).hasDims 2 1 ∧
    (⟨[[90, 100]]⟩ : Image).hasDims 2 1 :=
  ⟨by with_unfolding_all rfl, by decide, by decide, by decide, by decide⟩

/-- Claim C2 amended: in the multi-channel variant a registration call
is issued for cycle 0 too, with reference equal to cycle 0's own merged
image; whenever the adapter returns the identity transform for that
self-registration (the behaviour expected of a correct registration
routine on identical inputs), aligning cycle 0's channels at the
reference's output size leaves them pixel-identical to the unaligned
originals. -/
theorem keCycle0_identity (imread : String → Option Image)
    (ra : RegistrationAdapter) (dir : String) (rest : List String)
    (stack : List (List Image)) (std : Image) (calls : List RegCall)
    (chA chT chC chG ch0 : Image)
    (h : decode_data_Ke imread ra (dir :: rest) = .ok (stack, std, calls))
    (hload : keLoad imread dir = some (chA, chT, chC, chG, ch0))
    (hid : ∀ img : Image, ra.estimate img img ("ORB") = some idTransform)
    (hA : chA.hasDims ch0.width ch0.height)
    (hT : chT.hasDims ch0.width ch0.height)
    (hC : chC.hasDims ch0.width ch0.height)
    (hG : chG.hasDims ch0.width ch0.height) :
    stack.head? = some [chA, chT, chC, chG] ∧
    calls.head? = some ⟨ch0, ch0, ("ORB")⟩ := by
  obtain ⟨ref, href, hl1, hl2, hget⟩ := decode_Ke_ok_elim h
  have hrefc : imread (dir ++ "/DAPI.tif") = some ref := href
  have hrefe : ref = ch0 := by
    rw [(keLoad_proj hload).2.2.2.2] at hrefc
    simpa using hrefc.symm
  cases stack with
  | nil => simp at hl1
  | cons s0 stackR =>
    cases calls with
    | nil => simp at hl2
    | cons c0 callsR =>
      have hok := hget 0 (by simp) (by simp) (by simp)
      obtain ⟨chA2, chT2, chC2, chG2, ch02, tm, hload2, hest, hentry,
        hcall⟩ := keCycleEntry_ok_elim hok
      have hload3 : keLoad imread dir = some (chA2, chT2, chC2, chG2,
        ch02) := hload2
      rw [hload] at hload3
      obtain ⟨hA2, hT2, hC2, hG2, h02⟩ : chA = chA2 ∧ chT = chT2 ∧
          chC = chC2 ∧ chG = chG2 ∧ ch0 = ch02 := by
        simpa using hload3
      have htm : tm = idTransform := by
        rw [hrefe, ← h02, hid ch0] at hest
        simpa using hest.symm
      have hentry2 : s0 = [warpAffine chA2 tm (ref.width, ref.height),
          warpAffine chT2 tm (ref.width, ref.height),
          warpAffine chC2 tm (ref.width, ref.height),
          warpAffine chG2 tm (ref.width, ref.height)] := hentry
      have hcall2 : c0 = ⟨ref, ch02, ("ORB")⟩ := hcall
      rw [htm, hrefe, ← hA2, ← hT2, ← hC2, ← hG2] at hentry2
      rw [warpAffine_id chA _ _ hA, warpAffine_id chT _ _ hT,
        warpAffine_id chC _ _ hC, warpAffine_id chG _ _ hG] at hentry2
      rw [hrefe, ← h02] at hcall2
      rw [List.head?_cons, List.head?_cons, hentry2, hcall2]
      exact ⟨rfl, rfl⟩

/-- Witness for the amended claim C2 at a concrete one-cycle run with an
adapter returning the identity transform. -/
theorem keCycle0_identity_witness :
    ([[wImg 10, wImg 20, wImg 30, wImg 40]] :
        List (List Image)).head? = some [wImg 10, wImg 20, wImg 30,
      wImg 40] ∧
    ([⟨wImg 50, wImg 50, "ORB"⟩] : List RegCall).head? =
      some ⟨wImg 50, wImg 50, ("ORB")⟩ :=
  keCycle0_identity wImread wRa ("c") [] ([[wImg 10, wImg 20, wImg 30,
    wImg 40]]) (wImg 70) ([⟨wImg 50, wImg 50, "ORB"⟩]) (wImg 10)
    (wImg 20) (wImg 30) (wImg 40) (wImg 50) (by with_unfolding_all rfl)
    rfl (fun _ => rfl) (by decide) (by decide) (by decide) (by decide)
